import Mathlib

/-!
Shallow embedding of the attribution, aggregation and decision engine of
`google_ads_optimizer_tool.py` (class GoogleAdsOptimizer): identifier
extraction from destination URLs, identity resolution of click ids to
keywords, per-keyword aggregation of sales rows, and the strategy engine.
Python floats are modelled as rationals, Python dicts as insertion-ordered
association lists, and SQL NULL / missing numeric fields as Option.
-/

namespace AdsOpt

/-- Association list lookup, first match wins (Python dict read). -/
def lookupA {β : Type} : List (String × β) → String → Option β
  | [], _ => none
  | (k', v) :: t, k => if k' = k then some v else lookupA t k

/-- Association list update: replace the first binding of the key in place,
or append a new binding at the end (Python dict assignment, which keeps the
original insertion position of an existing key). -/
def setA {β : Type} : List (String × β) → String → β → List (String × β)
  | [], k, v => [(k, v)]
  | (k', v') :: t, k, v => if k' = k then (k, v) :: t else (k', v') :: setA t k v

/-- Keys of an association list, in insertion order. -/
def keysA {β : Type} (l : List (String × β)) : List String := l.map (·.1)

/-- Fragment and query split of urlsplit: the fragment is cut at the first
hash character, then the query is everything after the first question mark
of what remains (the last two steps of urlsplit). -/
def urlQueryChars (url : List Char) : List Char :=
  ((url.takeWhile (· ≠ '#')).dropWhile (· ≠ '?')).drop 1

/-- Total query extraction used by the aggregation pipeline: the fragment
and query split applied to the raw URL. This collapses urlsplit's scheme and
authority handling and, importantly, its error paths — those are modelled
faithfully by pyUrlsplitQuery below, which is what settles the raising
behaviour; the pipeline claims concern the aggregates produced from rows
whose URLs parse. -/
def urlQuery (url : String) : List Char := urlQueryChars url.data

/-- Split a character list on a separator character (Python str.split with a
one character separator: n separators give n plus one pieces). -/
def splitOnChar (c : Char) : List Char → List (List Char)
  | [] => [[]]
  | x :: xs =>
    if x = c then [] :: splitOnChar c xs
    else
      match splitOnChar c xs with
      | [] => [[x]]
      | f :: r => (x :: f) :: r

/-- One `name=value` field of a query string as Python parse_qs treats it
with keep_blank_values left False: a field without an equals sign and a
field with an empty value are dropped, and the value is everything after the
first equals sign. Percent decoding and plus decoding are not modelled: the
click identifiers the tool extracts are opaque tokens. -/
def parseQsField (field : List Char) : Option (List Char × List Char) :=
  let k := field.takeWhile (· ≠ '=')
  match field.dropWhile (· ≠ '=') with
  | [] => none
  | _ :: v => if v = [] then none else some (k, v)

/-- All `name=value` pairs of a query string in order (Python parse_qs keeps
every value of a repeated name, in order). -/
def parseQsPairs (q : List Char) : List (List Char × List Char) :=
  (splitOnChar '&' q).filterMap parseQsField

/-- First value of a query parameter: parse_qs collects the values of a name
in order and the tool reads index zero of that list. -/
def qsFirst (q : List Char) (key : List Char) : Option (List Char) :=
  ((parseQsPairs q).find? (fun p => p.1 == key)).map (·.2)

/-- Identifier extraction of the aggregation loop of
`_calculate_sales_per_keyword` on the success path: parse the URL query and
read the first gclid value. The source never consults gbraid. This total
version collapses urlparse's error paths; extractGclidE below carries
them. -/
def extractGclid (url : String) : Option (List Char) :=
  qsFirst (urlQuery url) "gclid".data

/-- Extraction following the spec's words in section 4.1: the first gclid
value if present, else the first gbraid value, else nothing — and total,
because the spec demands that extraction must not raise on malformed URLs.
Stated only for comparison with the code's behaviour. -/
def extractIdentifierSpec (url : String) : Option (List Char) :=
  match qsFirst (urlQuery url) "gclid".data with
  | some v => some v
  | none => qsFirst (urlQuery url) "gbraid".data

/-- Leading characters urlsplit strips from a URL before parsing: the WHATWG
C0 control characters and the space, every code point up to thirty two. -/
def lstripControl (cs : List Char) : List Char :=
  cs.dropWhile (fun c => c.toNat ≤ 32)

/-- Characters urlsplit removes from the whole URL before parsing: tab,
carriage return and newline. -/
def stripTabCrLf (cs : List Char) : List Char :=
  cs.filter (fun c => !(c == '\t' || c == '\r' || c == '\n'))

/-- Scheme characters of urllib: ASCII letters and digits, plus, minus and
dot. -/
def schemeChar (c : Char) : Bool :=
  c.isAlpha || c.isDigit || c == '+' || c == '-' || c == '.'

/-- Scheme removal of urlsplit: the prefix before the first colon is dropped
together with the colon exactly when it is non-empty, starts with an ASCII
letter, and consists of scheme characters only (the lowercasing of the
scheme does not matter here because the scheme is discarded). -/
def splitScheme (cs : List Char) : List Char :=
  match cs.findIdx? (· == ':') with
  | none => cs
  | some i =>
    if 0 < i ∧ (cs.headD ' ').isAlpha ∧ (cs.take i).all schemeChar then cs.drop (i + 1)
    else cs

/-- Authority split of urlsplit: when the remainder starts with two slashes,
the netloc runs to the first slash, question mark or hash; none when there
is no authority. -/
def netlocSplit : List Char → Option (List Char × List Char)
  | '/' :: '/' :: rest =>
    some (rest.takeWhile (fun c => !(c == '/' || c == '?' || c == '#')),
          rest.dropWhile (fun c => !(c == '/' || c == '?' || c == '#')))
  | _ => none

/-- Bracketed host of a netloc that has both brackets: the text after the
first opening bracket up to the next closing bracket (the two Python
partitions). -/
def bracketedHost (netloc : List Char) : List Char :=
  ((netloc.dropWhile (· ≠ '[')).drop 1).takeWhile (· ≠ ']')

/-- Decimal value of a digit string. -/
def digitsToNat (cs : List Char) : ℕ :=
  cs.foldl (fun a c => a * 10 + (c.toNat - 48)) 0

/-- One dotted-quad octet as the ipaddress module parses it: one to three
ASCII decimal digits, no leading zero except for the single zero itself,
value at most two hundred fifty five. -/
def validOctet (cs : List Char) : Bool :=
  !cs.isEmpty && cs.length ≤ 3 && cs.all Char.isDigit &&
    (cs == ['0'] || cs.headD '0' != '0') && digitsToNat cs ≤ 255

/-- Dotted-quad IPv4 address of the ipaddress module: exactly four valid
octets. -/
def validIPv4 (cs : List Char) : Bool :=
  (splitOnChar '.' cs).length == 4 && (splitOnChar '.' cs).all validOctet

/-- Hexadecimal digit. -/
def hexDigit (c : Char) : Bool :=
  c.isDigit || ('a' ≤ c && c ≤ 'f') || ('A' ≤ c && c ≤ 'F')

/-- One IPv6 hextet: one to four hex digits (an empty part fails the integer
conversion in the source). -/
def validHextet (cs : List Char) : Bool :=
  !cs.isEmpty && cs.length ≤ 4 && cs.all hexDigit

/-- IPv6 address validity following the ipaddress module: split on colons
into at least three parts, a dotted last part must be a valid IPv4 suffix
(it stands for two hextets), at most nine parts, at most one empty inner
part (the double colon), an empty first or last part only next to that
double colon, at least one skipped group, and every remaining part a valid
hextet. -/
def validIPv6 (cs : List Char) : Bool :=
  if cs.isEmpty then false
  else
    let parts0 := splitOnChar ':' cs
    if parts0.length < 3 then false
    else
      match
        (if (parts0.getLastD []).contains '.' then
          (if validIPv4 (parts0.getLastD []) then
            some (parts0.dropLast ++ [['0'], ['0']])
          else none)
        else some parts0) with
      | none => false
      | some parts =>
        let n := parts.length
        if n > 9 then false
        else
          let inner := (parts.drop 1).take (n - 2)
          match inner.findIdx? (fun p => p.isEmpty) with
          | none => n == 8 && parts.all validHextet
          | some j =>
            let si := j + 1
            if inner.countP (fun p => p.isEmpty) ≠ 1 then false
            else if (parts.headD ['x']).isEmpty ∧ si ≠ 1 then false
            else if (parts.getLastD ['x']).isEmpty ∧ si ≠ n - 2 then false
            else
              let hi := if (parts.headD ['x']).isEmpty then si - 1 else si
              let lo := if (parts.getLastD ['x']).isEmpty then n - si - 2 else n - si - 1
              if 8 ≤ hi + lo then false
              else (parts.take hi).all validHextet && (parts.drop (n - lo)).all validHextet

/-- The bracketed-host validation of urlsplit: a host starting with a
lowercase v must match the IPvFuture shape (v, one or more hex digits, a
dot, at least one further character); any other host must parse as an IPv6
address with an optional non-empty percent-separated scope suffix — a valid
IPv4 address in brackets is rejected, as is anything the ipaddress module
cannot parse. -/
def validBracketedHost (host : List Char) : Bool :=
  if host.headD ' ' == 'v' then
    let after := host.drop 1
    !(after.takeWhile hexDigit).isEmpty &&
      (match after.dropWhile hexDigit with
       | '.' :: tail => !tail.isEmpty
       | _ => false)
  else if validIPv4 host then false
  else
    let addr := host.takeWhile (· ≠ '%')
    match host.dropWhile (· ≠ '%') with
    | [] => validIPv6 addr
    | _ :: scope => !scope.isEmpty && !scope.contains '%' && validIPv6 addr

/-- Query extraction of CPython urlsplit with its reachable error paths: the
URL is left-stripped of control characters and spaces, stripped of tabs and
line breaks, the scheme and the authority are split off, mismatched square
brackets in the authority raise the Invalid IPv6 URL ValueError, a bracketed
host must validate (the several messages of that error family are
summarized here as one), and the query is what stands between the first
question mark and the fragment of the remainder. The NFKC normalization
check on non-ASCII authorities is the one error path not modelled. -/
def pyUrlsplitQuery (url : String) : Except String (List Char) :=
  match netlocSplit (splitScheme (stripTabCrLf (lstripControl url.data))) with
  | none => Except.ok (urlQueryChars (splitScheme (stripTabCrLf (lstripControl url.data))))
  | some (netloc, rest) =>
    if netloc.contains '[' ≠ netloc.contains ']' then
      Except.error "Invalid IPv6 URL"
    else if netloc.contains '[' then
      (if validBracketedHost (bracketedHost netloc) then Except.ok (urlQueryChars rest)
       else Except.error "invalid bracketed host")
    else Except.ok (urlQueryChars rest)

/-- Identifier extraction with urlparse's error behaviour: the ValueError of
an unparseable URL propagates out of the unguarded urlparse call in
`_calculate_sales_per_keyword` and aborts the whole aggregation; on a URL
that parses, the first gclid value of the query is read. -/
def extractGclidE (url : String) : Except String (Option (List Char)) :=
  match pyUrlsplitQuery url with
  | Except.error e => Except.error e
  | Except.ok q => Except.ok (qsFirst q "gclid".data)

/-- One row of the sales click log consumed by the aggregation (the shape of
`_fetch_sales_data` results used by `_calculate_sales_per_keyword`):
destination URL `kuda`, cost (None models SQL NULL), conversion tag `conv`. -/
structure SalesRow where
  kuda : String
  cost : Option ℚ
  conv : String
deriving DecidableEq, Repr

/-- Cost contribution of one row, `float(row.cost) if row.cost else 0.0`: a
missing cost counts as zero (a present zero cost is falsy in Python and also
maps to zero, the same value). -/
def costContrib (c : Option ℚ) : ℚ := c.getD 0

/-- Per-keyword accumulator created by the defaultdict in
`_calculate_sales_per_keyword`, every field zero. -/
structure KwStats where
  total_sales : ℚ
  conversion_count : ℕ
  clicks : ℕ
  average_cpc : ℚ
  current_bid : ℚ
  cost : ℚ
deriving DecidableEq, Repr

/-- The defaultdict default: all fields zero. -/
def defaultStats : KwStats := ⟨0, 0, 0, 0, 0, 0⟩

/-- Resolved keyword for one sales row: the first gclid value resolved
through the gclid map with an Unmapped placeholder for missing entries, or
the literal unknown label when the URL carries no gclid. -/
def rowKeyword (gclidMap : List (String × String)) (url : String) : String :=
  match extractGclid url with
  | none => "unknown"
  | some g =>
    match lookupA gclidMap (String.mk g) with
    | some kw => kw
    | none => "Unmapped (" ++ String.mk g ++ ")"

/-- Update of one accumulator entry by one sales row: clicks and cost are
bumped unconditionally, conversion count and total sales only for the two
qualifying tags. -/
def statUpdate (s : KwStats) (row : SalesRow) : KwStats :=
  let c := costContrib row.cost
  let s1 : KwStats := { s with clicks := s.clicks + 1, cost := s.cost + c }
  if row.conv = "registr" ∨ row.conv = "transfer" then
    { s1 with conversion_count := s1.conversion_count + 1,
              total_sales := s1.total_sales + c }
  else s1

/-- Fold of one sales row into the accumulator map: the loop body of
`_calculate_sales_per_keyword`, with the defaultdict supplying the all-zero
entry on first access of a keyword. -/
def foldRow (gclidMap : List (String × String)) (acc : List (String × KwStats))
    (row : SalesRow) : List (String × KwStats) :=
  let kw := rowKeyword gclidMap row.kuda
  setA acc kw (statUpdate ((lookupA acc kw).getD defaultStats) row)

/-- Python round of a value to two decimal places, on our rationals. An
exact tie at a half is rounded up here while Python floats round ties to
even; the program only rounds results of float division, where exact decimal
ties are accidents of the inputs. -/
def round2 (q : ℚ) : ℚ := (round (q * 100) : ℤ) / 100

/-- Python round of a value to four decimal places. -/
def round4 (q : ℚ) : ℚ := (round (q * 10000) : ℤ) / 10000

/-- Final pass of `_calculate_sales_per_keyword`: average_cpc becomes the
rounded cost per click when the keyword has clicks, else zero. -/
def finalizeAvg (m : List (String × KwStats)) : List (String × KwStats) :=
  m.map fun p =>
    (p.1, { p.2 with average_cpc :=
              if 0 < p.2.clicks then round2 (p.2.cost / (p.2.clicks : ℚ)) else 0 })

/-- The aggregation `_calculate_sales_per_keyword`. -/
def calculateSalesPerKeyword (salesData : List SalesRow)
    (gclidMap : List (String × String)) : List (String × KwStats) :=
  finalizeAvg (salesData.foldl (foldRow gclidMap) [])

/-- One suggested change of `_apply_optimization_strategy`: the full dict the
source builds per keyword. -/
structure Decision where
  action : String
  avg_cpa : Option ℚ
  conv_rate : ℚ
  clicks : ℕ
  conversion_count : ℕ
  average_cpc : ℚ
  current_bid : ℚ
  cost : ℚ
  reason : String
deriving DecidableEq, Repr

/-- Python format specifier .2f applied to the finite rationals the tool
formats: the value scaled by one hundred and rounded to the nearest integer
(the floor of the scaled value plus a half, written on the numerator and
denominator so it evaluates by integer arithmetic), printed with exactly two
fractional digits. Python floats round an exact tie to even; the program
formats results of float division, where exact decimal ties are accidents of
the inputs. -/
def formatFixed2 (q : ℚ) : String :=
  let n : ℤ := Int.fdiv (200 * q.num + (q.den : ℤ)) (2 * (q.den : ℤ))
  let a := n.natAbs
  (if n < 0 then "-" else "") ++ (toString (a / 100) ++ ("." ++
    (if a % 100 < 10 then "0" ++ toString (a % 100) else toString (a % 100))))

/-- Python str of a float, modelled for floats whose value is a terminating
decimal: an integral float prints a trailing point zero, any other
terminating decimal prints its digits with no trailing zeros. Values needing
more than seventeen fractional digits are outside the model and get a plain
fraction rendering. -/
def pyFloatStr (q : ℚ) : String :=
  match (List.range 18).find? (fun k => 10 ^ k % q.den == 0) with
  | some 0 => toString q.num ++ ".0"
  | some k =>
    let n : ℤ := q.num * ((10 ^ k / q.den : ℕ) : ℤ)
    let a := n.natAbs
    let frac := toString (a % 10 ^ k)
    (if n < 0 then "-" else "") ++ (toString (a / 10 ^ k) ++ ("." ++
      (String.mk (List.replicate (k - frac.length) '0') ++ frac)))
  | none => toString q.num ++ " / " ++ toString q.den

/-- Reason string of the CPA decrease branch, the f-string
"Average CPA (avg) exceeds max CPA (max)" with the average formatted .2f and
the threshold formatted by str. Kept right associated so substring facts are
by construction. -/
def cpaReason (avgCpa : ℚ) (maxCpa : ℚ) : String :=
  "Average CPA (" ++ (formatFixed2 avgCpa ++ (") exceeds max CPA (" ++
    (pyFloatStr maxCpa ++ ")")))

/-- Substring containment of Python's in operator on strings. -/
def strContains (s sub : String) : Prop := ∃ p q, s = p ++ (sub ++ q)

/-- Truthiness of the comparison avg_cpa greater than max_cpa where avg_cpa
may be the float infinity (conversion count zero). -/
def cpaGt (avgCpa : Option ℚ) (maxCpa : ℚ) : Bool :=
  match avgCpa with
  | none => true
  | some a => maxCpa < a

/-- Float average CPA of a keyword as the source computes it, None modelling
the float infinity used when the conversion count is zero. -/
def avgCpaOf (stats : KwStats) : Option ℚ :=
  if 0 < stats.conversion_count then
    some (stats.total_sales / (stats.conversion_count : ℚ))
  else none

/-- Conversion rate of a keyword as the source computes it. -/
def convRateOf (stats : KwStats) : ℚ :=
  if 0 < stats.clicks then (stats.conversion_count : ℚ) / (stats.clicks : ℚ) else 0

/-- The suggested-change dict `_apply_optimization_strategy` builds for one
keyword once an action and reason are chosen: a snapshot of the stats, the
rounded average CPA (None for the infinity of a zero conversion count) and
the rounded conversion rate. -/
def mkDecision (stats : KwStats) (action reason : String) : Decision :=
  { action := action, avg_cpa := (avgCpaOf stats).map round2,
    conv_rate := round4 (convRateOf stats),
    clicks := stats.clicks, conversion_count := stats.conversion_count,
    average_cpc := stats.average_cpc, current_bid := stats.current_bid,
    cost := stats.cost, reason := reason }

/-- Decision of `_apply_optimization_strategy` for one keyword. A None
result models the bare continue of the final else branch, which drops the
keyword from the suggested changes dict. In the CPA branch the average CPA
is necessarily finite because the zero conversion case was already caught,
so the default zero handed to cpaReason there is inert. -/
def decideOne (strategy : String) (maxCpa : ℚ) (stats : KwStats) : Option Decision :=
  if stats.clicks = 0 then some (mkDecision stats "Skip" "No traffic")
  else if stats.conversion_count = 0 then
    some (mkDecision stats "Pause or lower bid" "No conversions")
  else if strategy = "ROAS" ∧ 0 < stats.total_sales then
    some (mkDecision stats "Increase bid" "High ROAS")
  else if strategy = "CPA" ∧ cpaGt (avgCpaOf stats) maxCpa then
    some (mkDecision stats "Decrease bid" (cpaReason ((avgCpaOf stats).getD 0) maxCpa))
  else if strategy = "Manual" then
    some (mkDecision stats "Review manually" "Manual strategy selected")
  else none

/-- The loop of `_apply_optimization_strategy` over the keyword data:
keywords whose decision falls through to continue are absent from the
result. The min conversion rate threshold is accepted and never read, as in
the source. -/
def applyOptimizationStrategy (keywordData : List (String × KwStats))
    (strategy : String) (maxCpa : ℚ) (minConversionRate : ℚ) :
    List (String × Decision) :=
  keywordData.filterMap fun p => (decideOne strategy maxCpa p.2).map (fun d => (p.1, d))

/-- Backfill loop of `_execute`: every enabled keyword absent from the
aggregation gets an all-zero stats entry appended. -/
def backfillKeywords (keywordData : List (String × KwStats))
    (allKeywords : List String) : List (String × KwStats) :=
  allKeywords.foldl
    (fun acc kw => if (lookupA acc kw).isSome then acc else acc ++ [(kw, defaultStats)])
    keywordData

/-- Keyword data `_execute` hands to the strategy engine: the aggregation
over the sales rows followed by the enabled keyword backfill. -/
def finalKeywordData (salesData : List SalesRow) (gclidMap : List (String × String))
    (allKeywords : List String) : List (String × KwStats) :=
  backfillKeywords (calculateSalesPerKeyword salesData gclidMap) allKeywords

/-- Suggested changes computed by `_execute` for the optimization result. -/
def suggestedChanges (salesData : List SalesRow) (gclidMap : List (String × String))
    (allKeywords : List String) (strategy : String) (maxCpa minConversionRate : ℚ) :
    List (String × Decision) :=
  applyOptimizationStrategy (finalKeywordData salesData gclidMap allKeywords)
    strategy maxCpa minConversionRate

/-- Match a literal character sequence at the front of a list, returning the
remainder. -/
def dropLit : List Char → List Char → Option (List Char)
  | [], cs => some cs
  | _ :: _, [] => none
  | l :: ls, c :: cs => if c = l then dropLit ls cs else none

/-- Match the regular expression adGroupAds slash digits tilde digits at the
start of the character list, returning the first capture group (the ad group
id). The digit runs are maximal, which agrees with the greedy regex because
a digit can never match the tilde that must follow. -/
def matchAdGroupAdHere (cs : List Char) : Option String :=
  match dropLit "adGroupAds/".data cs with
  | none => none
  | some rest =>
    let d1 := rest.takeWhile Char.isDigit
    if d1 = [] then none
    else
      match rest.dropWhile Char.isDigit with
      | '~' :: rest2 => if rest2.takeWhile Char.isDigit = [] then none else some (String.mk d1)
      | _ => none

/-- The re.search scan: first position where the pattern matches. -/
def searchAdGroupAd : List Char → Option String
  | [] => none
  | c :: rest =>
    match matchAdGroupAdHere (c :: rest) with
    | some g => some g
    | none => searchAdGroupAd rest

/-- Extraction of the ad group id out of the composite ad_group_ad resource
path, as the re.search in `_fetch_all_gclid_keyword_pairs` does it. -/
def parseAdGroupAd (s : String) : Option String := searchAdGroupAd s.data

/-- First pass of `_fetch_all_gclid_keyword_pairs` over the click rows:
build the gclid to ad group dict (assignment, so a later row with the same
gclid overwrites) and the set of ad group ids seen, kept here as a list of
first occurrences. Rows with an empty gclid or resource path, or with a path
the pattern does not match, are skipped. -/
def clickPass (clickRows : List (String × String)) :
    List (String × String) × List String :=
  clickRows.foldl
    (fun acc r =>
      if r.1 ≠ "" ∧ r.2 ≠ "" then
        match parseAdGroupAd r.2 with
        | some agid =>
            (setA acc.1 r.1 agid, if agid ∈ acc.2 then acc.2 else acc.2 ++ [agid])
        | none => acc
      else acc)
    ([], [])

/-- Second pass of `_fetch_all_gclid_keyword_pairs`: ad group id (the last
slash component of the criterion's ad group path) to its keyword texts,
appended in row order (defaultdict of list). -/
def buildAdGroupToKeywords (kwRows : List (String × String)) :
    List (String × List String) :=
  kwRows.foldl
    (fun acc r =>
      let agid := String.mk ((splitOnChar '/' r.1.data).getLastD [])
      setA acc agid ((lookupA acc agid).getD [] ++ [r.2]))
    []

/-- Final join of `_fetch_all_gclid_keyword_pairs`: each gclid maps to the
first keyword of its ad group, or to the Unmapped placeholder when the ad
group has no keyword rows. -/
def gclidToKeyword (clickRows kwRows : List (String × String)) :
    List (String × String) :=
  let g2a := (clickPass clickRows).1
  let a2k := buildAdGroupToKeywords kwRows
  g2a.map fun p =>
    (p.1,
      match (lookupA a2k p.2).getD [] with
      | [] => "Unmapped (" ++ p.1 ++ ")"
      | kw :: _ => kw)

/-- One external search issued by the resolver: the table it reads and the
identifiers interpolated into its filter. -/
structure IssuedQuery where
  table : String
  filterIds : List String
deriving DecidableEq, Repr

/-- The external queries one call of `_fetch_all_gclid_keyword_pairs`
issues: a single click view search filtered only by campaign (no identifiers
in its filter) and a single keyword search whose filter carries every
collected ad group id at once. The function contains no batching of
identifiers into capped chunks. -/
def resolverIssuedQueries (clickRows : List (String × String)) : List IssuedQuery :=
  [⟨"click_view", []⟩, ⟨"ad_group_criterion", (clickPass clickRows).2⟩]

/-- Modelled from the spec: `_apply_google_ads_changes` is invoked from
`_execute` when the test flag is off but is absent from the source. Per the
spec it derives a raw bid from the decision action by a ten percent single
step nudge relative to the current bid. -/
def rawBidForAction (action : String) (currentBid : ℚ) : ℚ :=
  if action = "Increase bid" then currentBid * (11 / 10)
  else if action = "Decrease bid" ∨ action = "Pause or lower bid" then
    currentBid * (9 / 10)
  else currentBid

/-- Modelled from the spec: the hard clamp of any applied bid to within
thirty percent of the current bid, applied uniformly before any external
mutation. -/
def clampBid (currentBid rawBid : ℚ) : ℚ :=
  max (currentBid * (7 / 10)) (min rawBid (currentBid * (13 / 10)))

/-- Modelled from the spec: the bid value handed to the external change
applier for one decision. -/
def appliedBid (d : Decision) (currentBid : ℚ) : ℚ :=
  clampBid currentBid (rawBidForAction d.action currentBid)

/-! Helper lemmas about association lists and the aggregation fold. -/

theorem lookupA_setA {β : Type} (l : List (String × β)) (k : String) (v : β)
    (k' : String) :
    lookupA (setA l k v) k' = if k = k' then some v else lookupA l k' := by
  induction l with
  | nil => simp [setA, lookupA]
  | cons a t ih =>
    obtain ⟨ak, av⟩ := a
    by_cases hak : ak = k
    · subst hak
      simp only [setA, if_pos rfl, lookupA]
      by_cases h : ak = k'
      · simp [h]
      · simp [h, lookupA]
    · simp only [setA, if_neg hak, lookupA]
      by_cases h : ak = k'
      · have : ¬ k = k' := fun hk => hak (hk ▸ h)
        simp [h, this]
      · simp [h, ih]

theorem lookupA_append {β : Type} (l1 l2 : List (String × β)) (k : String) :
    lookupA (l1 ++ l2) k =
      match lookupA l1 k with
      | some v => some v
      | none => lookupA l2 k := by
  induction l1 with
  | nil => simp [lookupA]
  | cons a t ih =>
    obtain ⟨ak, av⟩ := a
    by_cases h : ak = k
    · simp [lookupA, h]
    · simp [lookupA, h, ih]

theorem keysA_cons {β : Type} (p : String × β) (t : List (String × β)) :
    keysA (p :: t) = p.1 :: keysA t := rfl

theorem lookupA_eq_none_iff {β : Type} (l : List (String × β)) (k : String) :
    lookupA l k = none ↔ k ∉ keysA l := by
  induction l with
  | nil => simp [lookupA, keysA]
  | cons a t ih =>
    obtain ⟨ak, av⟩ := a
    rw [keysA_cons]
    by_cases h : ak = k
    · subst h
      simp [lookupA]
    · have hka : ¬ k = ak := fun hk => h hk.symm
      rw [show lookupA ((ak, av) :: t) k = if ak = k then some av else lookupA t k
          from rfl, if_neg h, ih]
      simp [List.mem_cons, not_or, hka]

theorem keysA_setA_of_mem {β : Type} (l : List (String × β)) (k : String) (v : β)
    (h : k ∈ keysA l) : keysA (setA l k v) = keysA l := by
  induction l with
  | nil => simp [keysA] at h
  | cons a t ih =>
    obtain ⟨ak, av⟩ := a
    by_cases hak : ak = k
    · subst hak
      simp [setA, keysA_cons]
    · rw [keysA_cons] at h
      have ht : k ∈ keysA t := by
        rcases List.mem_cons.mp h with h1 | h1
        · exact absurd h1.symm hak
        · exact h1
      simp only [setA, if_neg hak, keysA_cons, ih ht]

theorem keysA_setA_of_not_mem {β : Type} (l : List (String × β)) (k : String) (v : β)
    (h : k ∉ keysA l) : keysA (setA l k v) = keysA l ++ [k] := by
  induction l with
  | nil => simp [setA, keysA]
  | cons a t ih =>
    obtain ⟨ak, av⟩ := a
    rw [keysA_cons] at h
    have hak : ak ≠ k := fun hk => h (by rw [hk]; exact List.mem_cons_self _ _)
    have ht : k ∉ keysA t := fun hk => h (List.mem_cons_of_mem _ hk)
    simp only [setA, if_neg hak, keysA_cons, ih ht, List.cons_append]

theorem nodup_keysA_setA {β : Type} (l : List (String × β)) (k : String) (v : β)
    (h : (keysA l).Nodup) : (keysA (setA l k v)).Nodup := by
  by_cases hm : k ∈ keysA l
  · rw [keysA_setA_of_mem l k v hm]; exact h
  · rw [keysA_setA_of_not_mem l k v hm]
    simp [List.nodup_append, h, hm]

theorem keysA_foldRow (gmap : List (String × String)) (acc : List (String × KwStats))
    (row : SalesRow) (h : (keysA acc).Nodup) : (keysA (foldRow gmap acc row)).Nodup := by
  unfold foldRow
  exact nodup_keysA_setA _ _ _ h

theorem nodup_keysA_foldl (gmap : List (String × String)) (rows : List SalesRow)
    (acc : List (String × KwStats)) (h : (keysA acc).Nodup) :
    (keysA (rows.foldl (foldRow gmap) acc)).Nodup := by
  induction rows generalizing acc with
  | nil => simpa using h
  | cons r rs ih => exact ih _ (keysA_foldRow gmap acc r h)

theorem lookupA_finalizeAvg (m : List (String × KwStats)) (k : String) :
    lookupA (finalizeAvg m) k =
      (lookupA m k).map (fun s =>
        { s with average_cpc :=
            if 0 < s.clicks then round2 (s.cost / (s.clicks : ℚ)) else 0 }) := by
  induction m with
  | nil => simp [finalizeAvg, lookupA]
  | cons a t ih =>
    obtain ⟨ak, av⟩ := a
    by_cases h : ak = k
    · simp [finalizeAvg, lookupA, h]
    · simpa [finalizeAvg, lookupA, h] using ih

theorem keysA_finalizeAvg (m : List (String × KwStats)) :
    keysA (finalizeAvg m) = keysA m := by
  simp [finalizeAvg, keysA]

theorem lookupA_foldRow (gmap : List (String × String)) (acc : List (String × KwStats))
    (row : SalesRow) (k : String) :
    lookupA (foldRow gmap acc row) k =
      if rowKeyword gmap row.kuda = k then
        some (statUpdate ((lookupA acc (rowKeyword gmap row.kuda)).getD defaultStats) row)
      else lookupA acc k := by
  unfold foldRow
  exact lookupA_setA _ _ _ _

/-- Every entry of the fold result satisfies a predicate provided the
predicate survives one row update when started from a previous entry or from
the defaultdict zero entry. -/
theorem foldl_entries (gmap : List (String × String)) (rows : List SalesRow)
    (acc : List (String × KwStats)) (P : KwStats → Prop)
    (hstep : ∀ s row, row ∈ rows → (P s ∨ s = defaultStats) → P (statUpdate s row))
    (hacc : ∀ k s, lookupA acc k = some s → P s) :
    ∀ k s, lookupA (rows.foldl (foldRow gmap) acc) k = some s → P s := by
  induction rows generalizing acc with
  | nil => simpa using hacc
  | cons r rs ih =>
    intro k s hs
    refine ih (foldRow gmap acc r)
      (fun s' row hrow hP => hstep s' row (List.mem_cons_of_mem _ hrow) hP)
      (fun k' s' hs' => ?_) k s hs
    rw [lookupA_foldRow] at hs'
    by_cases hk : rowKeyword gmap r.kuda = k'
    · rw [if_pos hk] at hs'
      cases hs'
      cases h0 : lookupA acc (rowKeyword gmap r.kuda) with
      | none =>
        refine hstep _ r (List.mem_cons_self _ _) (Or.inr ?_)
        simp [h0]
      | some s0 =>
        refine hstep _ r (List.mem_cons_self _ _) (Or.inl ?_)
        have := hacc _ _ h0
        simpa [h0] using this
    · rw [if_neg hk] at hs'
      exact hacc _ _ hs'

theorem lookupA_backfill_mono (ks : List String) (l : List (String × KwStats))
    (k : String) (h : (lookupA l k).isSome) :
    (lookupA (backfillKeywords l ks) k).isSome := by
  induction ks generalizing l with
  | nil => simpa [backfillKeywords] using h
  | cons a t ih =>
    rw [show backfillKeywords l (a :: t)
        = backfillKeywords (if (lookupA l a).isSome then l else l ++ [(a, defaultStats)]) t
        from rfl]
    by_cases ha : (lookupA l a).isSome
    · rw [if_pos ha]; exact ih l h
    · rw [if_neg ha]
      refine ih _ ?_
      rw [lookupA_append]
      cases hl : lookupA l k with
      | some v => simp [hl]
      | none => simp [hl] at h

theorem lookupA_backfill_of_mem (ks : List String) (l : List (String × KwStats))
    (k : String) (h : k ∈ ks) : (lookupA (backfillKeywords l ks) k).isSome := by
  induction ks generalizing l with
  | nil => simp at h
  | cons a t ih =>
    rw [show backfillKeywords l (a :: t)
        = backfillKeywords (if (lookupA l a).isSome then l else l ++ [(a, defaultStats)]) t
        from rfl]
    rcases List.mem_cons.mp h with h1 | h1
    · subst h1
      by_cases ha : (lookupA l k).isSome
      · rw [if_pos ha]
        exact lookupA_backfill_mono t l k ha
      · rw [if_neg ha]
        refine lookupA_backfill_mono t _ k ?_
        rw [lookupA_append]
        cases hl : lookupA l k with
        | some v => simp [hl] at ha
        | none => simp [lookupA]
    · by_cases ha : (lookupA l a).isSome
      · rw [if_pos ha]; exact ih l h1
      · rw [if_neg ha]; exact ih _ h1

theorem nodup_keysA_append_single {β : Type} (l : List (String × β)) (k : String)
    (v : β) (hnd : (keysA l).Nodup) (hk : k ∉ keysA l) :
    (keysA (l ++ [(k, v)])).Nodup := by
  rw [show keysA (l ++ [(k, v)]) = keysA l ++ [k] by simp [keysA]]
  simp [List.nodup_append, hnd, hk]

theorem nodup_keysA_backfill (ks : List String) (l : List (String × KwStats))
    (hnd : (keysA l).Nodup) : (keysA (backfillKeywords l ks)).Nodup := by
  induction ks generalizing l with
  | nil => simpa [backfillKeywords] using hnd
  | cons a t ih =>
    rw [show backfillKeywords l (a :: t)
        = backfillKeywords (if (lookupA l a).isSome then l else l ++ [(a, defaultStats)]) t
        from rfl]
    by_cases ha : (lookupA l a).isSome
    · rw [if_pos ha]; exact ih l hnd
    · rw [if_neg ha]
      refine ih _ (nodup_keysA_append_single l a defaultStats hnd ?_)
      rw [← lookupA_eq_none_iff]
      cases hl : lookupA l a with
      | some v => simp [hl] at ha
      | none => rfl

theorem lookupA_applyStrategy_of_not_mem (m : List (String × KwStats))
    (strategy : String) (maxCpa minConversionRate : ℚ) (k : String)
    (h : k ∉ keysA m) :
    lookupA (applyOptimizationStrategy m strategy maxCpa minConversionRate) k = none := by
  induction m with
  | nil => simp [applyOptimizationStrategy, lookupA]
  | cons a t ih =>
    obtain ⟨ak, s⟩ := a
    rw [keysA_cons] at h
    have hak : ak ≠ k := fun hk => h (by rw [hk]; exact List.mem_cons_self _ _)
    have ht : k ∉ keysA t := fun hk => h (List.mem_cons_of_mem _ hk)
    rw [show applyOptimizationStrategy ((ak, s) :: t) strategy maxCpa minConversionRate
        = match decideOne strategy maxCpa s with
          | some d => (ak, d) :: applyOptimizationStrategy t strategy maxCpa minConversionRate
          | none => applyOptimizationStrategy t strategy maxCpa minConversionRate
        from by cases hd : decideOne strategy maxCpa s <;>
          simp [applyOptimizationStrategy, hd]]
    cases hd : decideOne strategy maxCpa s with
    | some d => simp only [lookupA, if_neg hak]; exact ih ht
    | none => exact ih ht

theorem lookupA_applyStrategy (m : List (String × KwStats)) (strategy : String)
    (maxCpa minConversionRate : ℚ) (k : String) (hnd : (keysA m).Nodup) :
    lookupA (applyOptimizationStrategy m strategy maxCpa minConversionRate) k
      = (lookupA m k).bind (decideOne strategy maxCpa) := by
  induction m with
  | nil => simp [applyOptimizationStrategy, lookupA]
  | cons a t ih =>
    obtain ⟨ak, s⟩ := a
    rw [keysA_cons] at hnd
    have hnd' := hnd.of_cons
    have hout : ak ∉ keysA t := by
      intro hk
      exact (List.nodup_cons.mp hnd).1 hk
    rw [show applyOptimizationStrategy ((ak, s) :: t) strategy maxCpa minConversionRate
        = match decideOne strategy maxCpa s with
          | some d => (ak, d) :: applyOptimizationStrategy t strategy maxCpa minConversionRate
          | none => applyOptimizationStrategy t strategy maxCpa minConversionRate
        from by cases hd : decideOne strategy maxCpa s <;>
          simp [applyOptimizationStrategy, hd]]
    by_cases hak : ak = k
    · subst hak
      cases hd : decideOne strategy maxCpa s with
      | some d => simp [lookupA, hd]
      | none =>
        rw [lookupA_applyStrategy_of_not_mem t strategy maxCpa minConversionRate ak hout]
        simp [lookupA, hd]
    · cases hd : decideOne strategy maxCpa s with
      | some d =>
        simp only [lookupA, if_neg hak]
        exact ih hnd'
      | none =>
        rw [show lookupA ((ak, s) :: t) k = if ak = k then some s else lookupA t k
            from rfl, if_neg hak]
        exact ih hnd'

theorem find?_eq_head_of_filter {α : Type} (p : α → Bool) (l : List α) :
    l.find? p = (l.filter p).head? := by
  induction l with
  | nil => rfl
  | cons a t ih =>
    by_cases h : p a
    · rw [List.find?_cons_of_pos _ h, List.filter_cons_of_pos h, List.head?_cons]
    · rw [List.find?_cons_of_neg _ h, List.filter_cons_of_neg h, ih]

/-! Claim theorems. -/

/-- C1: for every keyword decision the strategy engine produces, under every
strategy and for every positive current bid, the bid value handed to the
external change applier stays between seventy and one hundred thirty percent
of the current bid, whatever the raw computed change was. The application
step is modelled from the spec because `_execute` calls it but the source
does not define it. -/
theorem bid_clamped_for_every_decision (strategy : String) (maxCpa : ℚ)
    (stats : KwStats) (current : ℚ) (d : Decision)
    (hd : decideOne strategy maxCpa stats = some d) (hpos : 0 < current) :
    current * (7 / 10) ≤ appliedBid d current ∧
      appliedBid d current ≤ current * (13 / 10) := by
  unfold appliedBid clampBid
  constructor
  · exact le_max_left _ _
  · apply max_le
    · nlinarith
    · exact min_le_right _ _

/-- Witness for C1 at the skip decision of an all-zero keyword and a current
bid of one. -/
theorem bid_clamped_for_every_decision_witness :
    1 * (7 / 10) ≤ appliedBid (mkDecision defaultStats "Skip" "No traffic") 1 ∧
      appliedBid (mkDecision defaultStats "Skip" "No traffic") 1 ≤ 1 * (13 / 10) :=
  bid_clamped_for_every_decision "ROAS" 0 defaultStats 1 _ rfl (by norm_num)

/-- C3 counterexample, refuting the claim on both of its points: the code's
extraction never consults gbraid (a URL carrying only gbraid yields no
identifier and the row is attributed to the unknown label, while the spec's
extraction returns the gbraid value), and extraction is not raise-free: a
URL whose authority has a mismatched square bracket — which still contains
the substring gclid and so passes the SQL filter — makes the unguarded
urlparse call raise the Invalid IPv6 URL ValueError instead of yielding the
no-identifier result. -/
theorem extraction_ignores_gbraid :
    extractGclidE "http://e.com/path?gbraid=B" = Except.ok none ∧
    extractIdentifierSpec "http://e.com/path?gbraid=B" = some ['B'] ∧
    rowKeyword [("B", "kw1")] "http://e.com/path?gbraid=B" = "unknown" ∧
    extractGclidE "http://[?gclid=x" = Except.error "Invalid IPv6 URL" :=
  ⟨rfl, by decide, by decide, rfl⟩

/-- C3 amended: for every destination URL on which urlparse succeeds,
extraction returns the value of the first gclid pair of the parsed query and
nothing when there is none — gbraid is never consulted; when urlparse fails,
its error propagates out of extraction (the call is unguarded), and in
particular every URL whose authority has a mismatched square bracket fails
with the Invalid IPv6 URL error: an unparseable URL is not treated as
no-identifier-found. -/
theorem extraction_first_gclid (url : String) :
    (∀ q, pyUrlsplitQuery url = Except.ok q →
      extractGclidE url = Except.ok
        ((((parseQsPairs q).filter (fun p => p.1 == "gclid".data)).head?).map (·.2))) ∧
    (∀ e, pyUrlsplitQuery url = Except.error e → extractGclidE url = Except.error e) ∧
    (∀ netloc rest,
      netlocSplit (splitScheme (stripTabCrLf (lstripControl url.data)))
        = some (netloc, rest) →
      netloc.contains '[' ≠ netloc.contains ']' →
      extractGclidE url = Except.error "Invalid IPv6 URL") := by
  refine ⟨?_, ?_, ?_⟩
  · intro q hq
    unfold extractGclidE
    rw [hq]
    show Except.ok (qsFirst q "gclid".data) = _
    unfold qsFirst
    rw [find?_eq_head_of_filter]
  · intro e he
    unfold extractGclidE
    rw [he]
  · intro netloc rest hn hbr
    have hq : pyUrlsplitQuery url = Except.error "Invalid IPv6 URL" := by
      unfold pyUrlsplitQuery
      rw [hn]
      exact if_pos hbr
    unfold extractGclidE
    rw [hq]

/-- Witness for C3: a parsing URL yields its gclid value, and a URL with a
mismatched bracket authority yields the Invalid IPv6 URL error. -/
theorem extraction_first_gclid_witness :
    extractGclidE "http://x3.com/?gclid=A" = Except.ok (some ['A']) ∧
    extractGclidE "http://[?gclid=x" = Except.error "Invalid IPv6 URL" := by
  constructor
  · have h := (extraction_first_gclid "http://x3.com/?gclid=A").1 ("gclid=A".data) rfl
    rw [h]
    rfl
  · exact (extraction_first_gclid "http://[?gclid=x").2.2 ['['] ("?gclid=x".data)
      rfl (by decide)

/-- Input for C4: one hundred twenty click rows with pairwise distinct
non-empty click identifiers, all resolving into the same ad group. -/
def c4ClickRows : List (String × String) :=
  (List.range 120).map (fun i => ("g" ++ toString i, "customers/1/adGroupAds/7~9"))

/-- C4 counterexample: one hundred twenty unique identifiers do not produce
three resolution batches of fifty, fifty and twenty; the resolver issues
exactly two external queries, neither of which is an identifier batch. -/
theorem resolver_unbatched_counterexample :
    c4ClickRows.length = 120 ∧
    (c4ClickRows.map Prod.fst).Nodup ∧
    (∀ r ∈ c4ClickRows, r.1 ≠ "") ∧
    (resolverIssuedQueries c4ClickRows).length = 2 ∧
    ¬ (resolverIssuedQueries c4ClickRows).length = 3 :=
  ⟨by decide, by decide, by decide, rfl, by decide⟩

/-- C4 amended: for every click row input, identifier resolution issues
exactly two external queries (one click view search for the whole campaign
and one keyword search carrying every collected ad group id at once); no
chunking into batches of at most fifty exists in the source. -/
theorem resolver_issues_two_queries (clickRows : List (String × String)) :
    (resolverIssuedQueries clickRows).length = 2 := rfl

/-- C7: the decision rules apply in precedence order with first match
winning; zero clicks always yields the skip action with the no-traffic
reason whatever the strategy, and positive clicks with zero conversions
always yields the pause-or-lower action with the no-conversions reason and
never the increase action. -/
theorem decision_precedence (strategy : String) (maxCpa : ℚ) (stats : KwStats) :
    (stats.clicks = 0 →
      decideOne strategy maxCpa stats = some (mkDecision stats "Skip" "No traffic")) ∧
    (0 < stats.clicks → stats.conversion_count = 0 →
      decideOne strategy maxCpa stats
        = some (mkDecision stats "Pause or lower bid" "No conversions") ∧
      ∀ d, decideOne strategy maxCpa stats = some d → d.action ≠ "Increase bid") := by
  constructor
  · intro h
    unfold decideOne
    rw [if_pos h]
  · intro hc h0
    have hne : stats.clicks ≠ 0 := Nat.pos_iff_ne_zero.mp hc
    have heq : decideOne strategy maxCpa stats
        = some (mkDecision stats "Pause or lower bid" "No conversions") := by
      unfold decideOne
      rw [if_neg hne, if_pos h0]
    refine ⟨heq, fun d hd => ?_⟩
    rw [heq] at hd
    cases hd
    simp [mkDecision]

/-- Witness for C7 at a zero-click keyword under the ROAS strategy and at a
keyword with four clicks and no conversion under the CPA strategy. -/
theorem decision_precedence_witness :
    decideOne "ROAS" 5 defaultStats = some (mkDecision defaultStats "Skip" "No traffic") ∧
    decideOne "CPA" 5 ⟨0, 0, 4, 0, 0, 0⟩
      = some (mkDecision ⟨0, 0, 4, 0, 0, 0⟩ "Pause or lower bid" "No conversions") :=
  ⟨(decision_precedence "ROAS" 5 defaultStats).1 rfl,
   ((decision_precedence "CPA" 5 ⟨0, 0, 4, 0, 0, 0⟩).2 (by decide) rfl).1⟩

theorem statUpdate_clicks (s : KwStats) (row : SalesRow) :
    (statUpdate s row).clicks = s.clicks + 1 := by
  unfold statUpdate
  by_cases h : row.conv = "registr" ∨ row.conv = "transfer" <;> simp [h]

theorem statUpdate_cost (s : KwStats) (row : SalesRow) :
    (statUpdate s row).cost = s.cost + costContrib row.cost := by
  unfold statUpdate
  by_cases h : row.conv = "registr" ∨ row.conv = "transfer" <;> simp [h]

theorem statUpdate_conversion_count (s : KwStats) (row : SalesRow) :
    (statUpdate s row).conversion_count = s.conversion_count
      + (if row.conv = "registr" ∨ row.conv = "transfer" then 1 else 0) := by
  unfold statUpdate
  by_cases h : row.conv = "registr" ∨ row.conv = "transfer" <;> simp [h]

theorem statUpdate_total_sales (s : KwStats) (row : SalesRow) :
    (statUpdate s row).total_sales = s.total_sales
      + (if row.conv = "registr" ∨ row.conv = "transfer" then costContrib row.cost
         else 0) := by
  unfold statUpdate
  by_cases h : row.conv = "registr" ∨ row.conv = "transfer" <;> simp [h]

/-- Sales rows of the C5 scenario: two clicks on the same gclid, one with a
qualifying conversion tag. -/
def c5rows : List SalesRow :=
  [⟨"http://x.com/?gclid=A", some 10, "registr"⟩,
   ⟨"http://x.com/?gclid=A", some 5, "none"⟩]

/-- Identity mapping of the C5 scenario. -/
def c5map : List (String × String) := [("A", "kw1")]

/-- C5: the aggregation folds each record exactly once into its resolved
keyword's entry (other keys are untouched), incrementing clicks by one and
adding the record's cost unconditionally while bumping the conversion count
and conversion value exactly for the qualifying tags; on the scenario rows
this yields two clicks, cost fifteen, one conversion, conversion value ten
and an average cost per click of seven and a half for kw1. -/
theorem aggregation_fold_law :
    (∀ (gmap : List (String × String)) (acc : List (String × KwStats)) (row : SalesRow),
      lookupA (foldRow gmap acc row) (rowKeyword gmap row.kuda)
        = some (statUpdate ((lookupA acc (rowKeyword gmap row.kuda)).getD defaultStats) row)
      ∧ (∀ k, k ≠ rowKeyword gmap row.kuda →
          lookupA (foldRow gmap acc row) k = lookupA acc k)
      ∧ ∀ s : KwStats,
          (statUpdate s row).clicks = s.clicks + 1
          ∧ (statUpdate s row).cost = s.cost + costContrib row.cost
          ∧ (statUpdate s row).conversion_count = s.conversion_count
              + (if row.conv = "registr" ∨ row.conv = "transfer" then 1 else 0)
          ∧ (statUpdate s row).total_sales = s.total_sales
              + (if row.conv = "registr" ∨ row.conv = "transfer" then costContrib row.cost
                 else 0))
    ∧ calculateSalesPerKeyword c5rows c5map = [("kw1", ⟨10, 1, 2, 15 / 2, 0, 15⟩)] := by
  constructor
  · intro gmap acc row
    refine ⟨?_, ?_, ?_⟩
    · rw [lookupA_foldRow, if_pos rfl]
    · intro k hk
      rw [lookupA_foldRow, if_neg (fun h => hk h.symm)]
    · intro s
      exact ⟨statUpdate_clicks s row, statUpdate_cost s row,
        statUpdate_conversion_count s row, statUpdate_total_sales s row⟩
  · have hkw : rowKeyword [("A", "kw1")] "http://x.com/?gclid=A" = "kw1" := by decide
    simp [calculateSalesPerKeyword, c5rows, c5map, foldRow, hkw, finalizeAvg,
      lookupA, setA, defaultStats, statUpdate, costContrib, round2, round_eq]
    norm_num

/-- Witness for C5's conditional parts, at the first scenario row folded into
an empty accumulator, with an unrelated key left untouched. -/
theorem aggregation_fold_law_witness :
    lookupA (foldRow c5map [] (⟨"http://x.com/?gclid=A", some 10, "registr"⟩ : SalesRow)) "kw1"
      = some (statUpdate defaultStats ⟨"http://x.com/?gclid=A", some 10, "registr"⟩) ∧
    lookupA (foldRow c5map [] (⟨"http://x.com/?gclid=A", some 10, "registr"⟩ : SalesRow)) "zzz"
      = lookupA [] "zzz" := by
  have h := aggregation_fold_law.1 c5map [] ⟨"http://x.com/?gclid=A", some 10, "registr"⟩
  have hkw : rowKeyword c5map "http://x.com/?gclid=A" = "kw1" := by decide
  constructor
  · have h1 := h.1
    rw [show (⟨"http://x.com/?gclid=A", some 10, "registr"⟩ : SalesRow).kuda
        = "http://x.com/?gclid=A" from rfl, hkw] at h1
    simpa [lookupA] using h1
  · exact h.2.1 "zzz" (by rw [show (⟨"http://x.com/?gclid=A", some 10, "registr"⟩ : SalesRow).kuda
        = "http://x.com/?gclid=A" from rfl, hkw]; decide)

/-- Invariant step: one row update preserves the two aggregation
inequalities when the row's cost contribution is non-negative. -/
theorem statUpdate_inv (s : KwStats) (row : SalesRow)
    (hc : 0 ≤ costContrib row.cost)
    (h : s.conversion_count ≤ s.clicks ∧ s.total_sales ≤ s.cost) :
    (statUpdate s row).conversion_count ≤ (statUpdate s row).clicks ∧
      (statUpdate s row).total_sales ≤ (statUpdate s row).cost := by
  rw [statUpdate_clicks, statUpdate_cost, statUpdate_conversion_count,
    statUpdate_total_sales]
  by_cases hcv : row.conv = "registr" ∨ row.conv = "transfer"
  · rw [if_pos hcv, if_pos hcv]
    exact ⟨Nat.add_le_add_right h.1 1, add_le_add h.2 le_rfl⟩
  · rw [if_neg hcv, if_neg hcv]
    exact ⟨Nat.le_succ_of_le h.1, by linarith [h.2]⟩

/-- C6: after aggregation over any record set with non-negative per-record
costs, every keyword's entry has at most as many conversions as clicks and
at most as much conversion value as cost. -/
theorem aggregation_invariants (sales : List SalesRow)
    (gmap : List (String × String))
    (hcost : ∀ r ∈ sales, 0 ≤ costContrib r.cost) :
    ∀ k s, lookupA (calculateSalesPerKeyword sales gmap) k = some s →
      s.conversion_count ≤ s.clicks ∧ s.total_sales ≤ s.cost := by
  intro k s hs
  unfold calculateSalesPerKeyword at hs
  rw [lookupA_finalizeAvg] at hs
  cases h0 : lookupA (sales.foldl (foldRow gmap) []) k with
  | none => rw [h0] at hs; cases hs
  | some s0 =>
    rw [h0] at hs
    have hP : s0.conversion_count ≤ s0.clicks ∧ s0.total_sales ≤ s0.cost := by
      refine foldl_entries gmap sales []
        (fun t => t.conversion_count ≤ t.clicks ∧ t.total_sales ≤ t.cost)
        (fun s' row hrow hor => ?_) (fun k' s' h' => by simp [lookupA] at h') k s0 h0
      rcases hor with hP' | hdef
      · exact statUpdate_inv s' row (hcost row hrow) hP'
      · subst hdef
        exact statUpdate_inv defaultStats row (hcost row hrow) ⟨le_rfl, le_rfl⟩
    cases hs
    exact hP

/-- Witness for C6 at one converting record of cost ten. -/
theorem aggregation_invariants_witness :
    (∀ r ∈ ([⟨"http://w6.com/?gclid=A", some 10, "registr"⟩] : List SalesRow),
      0 ≤ costContrib r.cost) ∧
    ((⟨10, 1, 1, 10, 0, 10⟩ : KwStats).conversion_count
        ≤ (⟨10, 1, 1, 10, 0, 10⟩ : KwStats).clicks ∧
      (⟨10, 1, 1, 10, 0, 10⟩ : KwStats).total_sales
        ≤ (⟨10, 1, 1, 10, 0, 10⟩ : KwStats).cost) := by
  have hcost : ∀ r ∈ ([⟨"http://w6.com/?gclid=A", some 10, "registr"⟩] : List SalesRow),
      0 ≤ costContrib r.cost := by
    intro r hr
    rcases List.mem_singleton.mp hr with h
    subst h
    simp [costContrib]
  have hkw : rowKeyword [("A", "kw6")] "http://w6.com/?gclid=A" = "kw6" := by decide
  have hlook : lookupA
      (calculateSalesPerKeyword [⟨"http://w6.com/?gclid=A", some 10, "registr"⟩]
        [("A", "kw6")]) "kw6" = some ⟨10, 1, 1, 10, 0, 10⟩ := by
    simp [calculateSalesPerKeyword, foldRow, hkw, finalizeAvg, lookupA, setA,
      defaultStats, statUpdate, costContrib, round2, round_eq]
    norm_num
  exact ⟨hcost, aggregation_invariants _ _ hcost "kw6" _ hlook⟩

/-- Sales rows of the C9 counterexample: three non-converting clicks with a
total cost of ten, so the exact cost per click is not a two-decimal value. -/
def c9rows : List SalesRow :=
  [⟨"http://x9.com/?gclid=A", some 4, "none"⟩,
   ⟨"http://x9.com/?gclid=A", some 3, "none"⟩,
   ⟨"http://x9.com/?gclid=A", some 3, "none"⟩]

/-- C9 counterexample: for three clicks of total cost ten the aggregated
average cost per click is the rounded value three point three three, not the
exact quotient ten thirds. -/
theorem avg_cpc_rounded_counterexample :
    lookupA (calculateSalesPerKeyword c9rows [("A", "kw9")]) "kw9"
      = some ⟨0, 0, 3, 333 / 100, 0, 10⟩ ∧
    (333 : ℚ) / 100 ≠ (10 : ℚ) / 3 := by
  constructor
  · have hkw : rowKeyword [("A", "kw9")] "http://x9.com/?gclid=A" = "kw9" := by decide
    simp [calculateSalesPerKeyword, c9rows, foldRow, hkw, finalizeAvg, lookupA,
      setA, defaultStats, statUpdate, costContrib, round2, round_eq]
    norm_num
  · norm_num

/-- C9 amended: for every aggregated keyword the average cost per click
equals the cost per click rounded to two decimal places when the keyword has
clicks and zero otherwise; the division is guarded by the click count so a
zero divisor is never used. -/
theorem aggregated_avg_cpc (sales : List SalesRow) (gmap : List (String × String))
    (k : String) (s : KwStats)
    (h : lookupA (calculateSalesPerKeyword sales gmap) k = some s) :
    s.average_cpc = if 0 < s.clicks then round2 (s.cost / (s.clicks : ℚ)) else 0 := by
  unfold calculateSalesPerKeyword at h
  rw [lookupA_finalizeAvg] at h
  cases h0 : lookupA (sales.foldl (foldRow gmap) []) k with
  | none => rw [h0] at h; cases h
  | some s0 =>
    rw [h0] at h
    cases h
    rfl

/-- Witness for C9 at the counterexample rows. -/
theorem aggregated_avg_cpc_witness :
    (⟨0, 0, 3, 333 / 100, 0, 10⟩ : KwStats).average_cpc
      = if 0 < (⟨0, 0, 3, 333 / 100, 0, 10⟩ : KwStats).clicks
        then round2 ((⟨0, 0, 3, 333 / 100, 0, 10⟩ : KwStats).cost
          / ((⟨0, 0, 3, 333 / 100, 0, 10⟩ : KwStats).clicks : ℚ))
        else 0 := by
  have hkw : rowKeyword [("A", "kw9")] "http://x9.com/?gclid=A" = "kw9" := by decide
  have hlook : lookupA (calculateSalesPerKeyword c9rows [("A", "kw9")]) "kw9"
      = some ⟨0, 0, 3, 333 / 100, 0, 10⟩ := by
    simp [calculateSalesPerKeyword, c9rows, foldRow, hkw, finalizeAvg, lookupA,
      setA, defaultStats, statUpdate, costContrib, round2, round_eq]
    norm_num
  exact aggregated_avg_cpc c9rows [("A", "kw9")] "kw9" _ hlook

/-- C10: every keyword present in the map the aggregation pass itself
produces has at least one click, because an entry is created only when a
record is folded into it and every fold increments the click count; an
all-zero entry can therefore only come from the enabled-keyword backfill. -/
theorem aggregated_clicks_pos (sales : List SalesRow)
    (gmap : List (String × String)) (k : String) (s : KwStats)
    (h : lookupA (calculateSalesPerKeyword sales gmap) k = some s) :
    1 ≤ s.clicks := by
  unfold calculateSalesPerKeyword at h
  rw [lookupA_finalizeAvg] at h
  cases h0 : lookupA (sales.foldl (foldRow gmap) []) k with
  | none => rw [h0] at h; cases h
  | some s0 =>
    rw [h0] at h
    have hP : 1 ≤ s0.clicks := by
      refine foldl_entries gmap sales [] (fun t => 1 ≤ t.clicks)
        (fun s' row hrow hor => ?_) (fun k' s' h' => by simp [lookupA] at h') k s0 h0
      show 1 ≤ (statUpdate s' row).clicks
      rw [statUpdate_clicks]
      exact Nat.le_add_left 1 s'.clicks
    cases h
    exact hP

/-- Witness for C10 at a single costless click attributed through the map. -/
theorem aggregated_clicks_pos_witness :
    1 ≤ (⟨0, 0, 1, 0, 0, 0⟩ : KwStats).clicks := by
  have hkw : rowKeyword [("A", "kwx")] "http://w10.com/?gclid=A" = "kwx" := by decide
  have hlook : lookupA
      (calculateSalesPerKeyword [⟨"http://w10.com/?gclid=A", none, "none"⟩]
        [("A", "kwx")]) "kwx" = some ⟨0, 0, 1, 0, 0, 0⟩ := by
    simp [calculateSalesPerKeyword, foldRow, hkw, finalizeAvg, lookupA, setA,
      defaultStats, statUpdate, costContrib, round2, round_eq]
    norm_num
  exact aggregated_clicks_pos _ _ "kwx" _ hlook

/-- C2 amended: every keyword returned by the enabled keyword listing is
present in the final per-keyword stats map; its presence in the suggested
changes is exactly governed by the per-keyword decision, so a keyword whose
stats fall through every strategy rule (the bare continue) is silently
absent from the decisions. -/
theorem enabled_keywords_stats_and_decisions (sales : List SalesRow)
    (gmap : List (String × String)) (allKeywords : List String)
    (strategy : String) (maxCpa minConversionRate : ℚ) (k : String)
    (hk : k ∈ allKeywords) :
    (lookupA (finalKeywordData sales gmap allKeywords) k).isSome ∧
    lookupA (suggestedChanges sales gmap allKeywords strategy maxCpa minConversionRate) k
      = (lookupA (finalKeywordData sales gmap allKeywords) k).bind
          (decideOne strategy maxCpa) := by
  constructor
  · unfold finalKeywordData
    exact lookupA_backfill_of_mem allKeywords _ k hk
  · unfold suggestedChanges
    apply lookupA_applyStrategy
    unfold finalKeywordData
    apply nodup_keysA_backfill
    unfold calculateSalesPerKeyword
    have h1 : keysA (finalizeAvg (sales.foldl (foldRow gmap) [])) =
        keysA (sales.foldl (foldRow gmap) []) := keysA_finalizeAvg _
    rw [h1]
    exact nodup_keysA_foldl gmap sales [] (by simp [keysA])

/-- C2 counterexample: an enabled keyword with traffic and conversions whose
average CPA stays under the threshold under the CPA strategy is present in
the stats map yet receives no decision at all; the continue fallthrough
drops it from the suggested changes. -/
theorem enabled_keyword_dropped :
    "kw2" ∈ ["kw2"] ∧
    (lookupA (finalKeywordData [⟨"http://x2.com/?gclid=A", some 10, "registr"⟩]
        [("A", "kw2")] ["kw2"]) "kw2").isSome ∧
    lookupA (suggestedChanges [⟨"http://x2.com/?gclid=A", some 10, "registr"⟩]
        [("A", "kw2")] ["kw2"] "CPA" 100 0) "kw2" = none := by
  have hkw : rowKeyword [("A", "kw2")] "http://x2.com/?gclid=A" = "kw2" := by decide
  have hstats : finalKeywordData [⟨"http://x2.com/?gclid=A", some 10, "registr"⟩]
      [("A", "kw2")] ["kw2"] = [("kw2", ⟨10, 1, 1, 10, 0, 10⟩)] := by
    simp [finalKeywordData, backfillKeywords, calculateSalesPerKeyword, foldRow,
      hkw, finalizeAvg, lookupA, setA, defaultStats, statUpdate, costContrib,
      round2, round_eq]
    norm_num
  have hdec : decideOne "CPA" 100 (⟨10, 1, 1, 10, 0, 10⟩ : KwStats) = none := by
    have hgt : cpaGt (avgCpaOf ⟨10, 1, 1, 10, 0, 10⟩) 100 = false := by
      simp [avgCpaOf, cpaGt]
      norm_num
    simp [decideOne, hgt]
  refine ⟨by decide, ?_, ?_⟩
  · rw [hstats]
    simp [lookupA]
  · unfold suggestedChanges
    rw [hstats]
    simp [applyOptimizationStrategy, hdec, lookupA]

/-- Witness for C2 at a single enabled keyword with no traffic. -/
theorem enabled_keywords_stats_and_decisions_witness :
    (lookupA (finalKeywordData [] [] ["kw2w"]) "kw2w").isSome ∧
    lookupA (suggestedChanges [] [] ["kw2w"] "ROAS" 0 0) "kw2w"
      = (lookupA (finalKeywordData [] [] ["kw2w"]) "kw2w").bind (decideOne "ROAS" 0) :=
  enabled_keywords_stats_and_decisions [] [] ["kw2w"] "ROAS" 0 0 "kw2w" (by decide)

/-- C8: under the CPA strategy, a keyword with clicks, conversions and an
average CPA above the threshold gets the decrease action, and its reason
string contains the average CPA formatted to two decimals and the threshold
as Python prints it. -/
theorem cpa_decrease (stats : KwStats) (maxCpa : ℚ) (h1 : 0 < stats.clicks)
    (h2 : 0 < stats.conversion_count)
    (h3 : maxCpa < stats.total_sales / (stats.conversion_count : ℚ)) :
    decideOne "CPA" maxCpa stats
      = some (mkDecision stats "Decrease bid"
          (cpaReason (stats.total_sales / (stats.conversion_count : ℚ)) maxCpa)) ∧
    strContains (cpaReason (stats.total_sales / (stats.conversion_count : ℚ)) maxCpa)
      (formatFixed2 (stats.total_sales / (stats.conversion_count : ℚ))) ∧
    strContains (cpaReason (stats.total_sales / (stats.conversion_count : ℚ)) maxCpa)
      (pyFloatStr maxCpa) := by
  have hca : avgCpaOf stats = some (stats.total_sales / (stats.conversion_count : ℚ)) := by
    unfold avgCpaOf
    rw [if_pos h2]
  refine ⟨?_, ?_, ?_⟩
  · unfold decideOne
    rw [if_neg (Nat.pos_iff_ne_zero.mp h1), if_neg (Nat.pos_iff_ne_zero.mp h2),
      if_neg (fun hc => absurd hc.1 (by decide)),
      if_pos ⟨rfl, by rw [hca]; simpa [cpaGt] using h3⟩, hca]
    rfl
  · exact ⟨"Average CPA (",
      ") exceeds max CPA (" ++ (pyFloatStr maxCpa ++ ")"), rfl⟩
  · refine ⟨"Average CPA ("
        ++ (formatFixed2 (stats.total_sales / (stats.conversion_count : ℚ))
            ++ ") exceeds max CPA ("), ")", ?_⟩
    unfold cpaReason
    rw [String.append_assoc, String.append_assoc]

/-- Stats of the C8 scenario: ten clicks, two conversions, conversion value
twenty. -/
def c8stats : KwStats := ⟨20, 2, 10, 0, 0, 20⟩

/-- Witness for C8 at the scenario stats and a threshold of five: the
decision is a decrease and the reason mentions the strings for ten point
zero zero and for five. -/
theorem cpa_decrease_witness :
    decideOne "CPA" 5 c8stats
      = some (mkDecision c8stats "Decrease bid"
          (cpaReason (c8stats.total_sales / (c8stats.conversion_count : ℚ)) 5)) ∧
    strContains (cpaReason (c8stats.total_sales / (c8stats.conversion_count : ℚ)) 5)
      "10.00" ∧
    strContains (cpaReason (c8stats.total_sales / (c8stats.conversion_count : ℚ)) 5)
      "5" := by
  obtain ⟨he, hf, hg⟩ := cpa_decrease c8stats 5 (by decide) (by decide)
    (by norm_num [c8stats])
  have h10 : c8stats.total_sales / (c8stats.conversion_count : ℚ) = 10 := by
    norm_num [c8stats]
  have hf2 : formatFixed2 (c8stats.total_sales / (c8stats.conversion_count : ℚ))
      = "10.00" := by
    rw [h10]
    decide
  have hg2 : pyFloatStr (5 : ℚ) = "5.0" := by decide
  refine ⟨he, ?_, ?_⟩
  · rw [← hf2]
    exact hf
  · obtain ⟨p, q, hpq⟩ := hg
    refine ⟨p, ".0" ++ q, ?_⟩
    rw [hpq, hg2, show ("5.0" : String) = "5" ++ ".0" from by decide,
      String.append_assoc]

end AdsOpt
